import Mathlib

/-!
Shallow embedding of the reservation core of `doctor-on-call`.

Sources embedded here:
- `src/features/booking/services/bookingService.ts`
  (`BookingService.bookAppointment`, `BookingService.updateAppointmentStatus`,
  `generateRoomName`, `canJoinAppointment`, `JOIN_TIME_WINDOW_MS`)
- `src/features/availability/hooks/useAvailability.ts`
  (`AvailabilityService.createSlot`, `createSlots`, `createRecurringSlots`,
  `deleteSlot`)

Modelling conventions:
- Instants (JS `Date` / Firestore `Timestamp`) are integers. Booking and the
  join validator work in milliseconds; the recurring-slot generator works in
  minutes (all quantities the source manipulates there are whole minutes,
  DST-free local time, one day = 1440 minutes).
- Firestore documents are association lists keyed by
  `(doctorId, slotId)` for slots; appointments are a list.
- A Firestore transaction (`runTransaction`) is atomic, so `bookAppointment`
  is one pure state transition; a thrown error aborts with no writes.
- `addDoc`'s fresh document ids, and per-write success or failure of the
  storage layer, are supplied by explicit oracle arguments.
-/

deriving instance DecidableEq for Except

namespace DoctorOnCall

/-- Appointment status, from `booking.types.ts` (`AppointmentStatus`). -/
inductive AppointmentStatus : Type
  | pending
  | confirmed
  | completed
  | cancelled
deriving DecidableEq, Repr

/-- An availability slot document, from `availability.types.ts`
(`AvailabilitySlot`); instants in milliseconds. -/
structure Slot : Type where
  doctorId : String
  start : Int
  stop : Int
  booked : Bool
  createdAt : Int
deriving DecidableEq, Repr

/-- An appointment document, from `booking.types.ts` (`Appointment`). -/
structure Appointment : Type where
  id : String
  clientId : String
  doctorId : String
  slotStart : Int
  slotEnd : Int
  status : AppointmentStatus
  roomName : String
  notes : Option String
  createdAt : Int
  updatedAt : Int
deriving DecidableEq, Repr

/-- Booking input, from `booking.types.ts` (`BookingInput`). -/
structure BookingInput : Type where
  doctorId : String
  slotId : String
  notes : Option String
deriving DecidableEq, Repr

/-- The Firestore state touched by the reservation core: the
`availability/{doctorId}/slots/{slotId}` documents and the `appointments`
collection. -/
structure Store : Type where
  slots : List ((String × String) × Slot)
  appointments : List Appointment
deriving DecidableEq, Repr

/-- Document lookup by `(doctorId, slotId)` in a slot collection. -/
def lookupSlotIn (slots : List ((String × String) × Slot))
    (doctorId slotId : String) : Option Slot :=
  (slots.find? (fun p => p.1 == (doctorId, slotId))).map Prod.snd

/-- Models `transaction.get(slotRef)`: document lookup by `(doctorId, slotId)`. -/
def lookupSlot (store : Store) (doctorId slotId : String) : Option Slot :=
  lookupSlotIn store.slots doctorId slotId

/-- Models `transaction.update(slotRef, ...)`: replace the document at a key. -/
def writeSlot (slots : List ((String × String) × Slot)) (doctorId slotId : String)
    (slot : Slot) : List ((String × String) × Slot) :=
  slots.map (fun p => if p.1 == (doctorId, slotId) then (p.1, slot) else p)

/-- Errors thrown by `BookingService.bookAppointment`, one per `throw` site
(`'Slot not found'`, `'Slot is already booked'`, `'Cannot book past slots'`). -/
inductive BookingError : Type
  | SlotNotFound
  | SlotAlreadyBooked
  | SlotInPast
deriving DecidableEq, Repr

/-- Source `BookingService.generateRoomName`: `doconcall-{appointmentId}-{timestamp}`
with `timestamp = Date.now()` at generation time. -/
def generateRoomName (appointmentId : String) (nowMs : Int) : String :=
  "doconcall-" ++ appointmentId ++ "-" ++ toString nowMs

/-- The appointment record constructed inside the booking transaction. -/
def mkAppointment (clientId : String) (input : BookingInput) (slot : Slot)
    (now : Int) (appointmentId : String) : Appointment :=
  { id := appointmentId
    clientId := clientId
    doctorId := input.doctorId
    slotStart := slot.start
    slotEnd := slot.stop
    status := .pending
    roomName := generateRoomName appointmentId now
    notes := input.notes
    createdAt := now
    updatedAt := now }

/-- Source `BookingService.bookAppointment`. The whole `runTransaction` body is one
atomic step: read the slot, validate (missing → booked → past, in that
order), create the appointment, set `booked := true`. `now` is the
operation's observed time, `appointmentId` the fresh id minted by
`doc(collection(firestore, 'appointments'))`. On error no write happens. -/
def bookAppointment (store : Store) (clientId : String) (input : BookingInput)
    (now : Int) (appointmentId : String) :
    Except BookingError (Appointment × Store) :=
  match lookupSlot store input.doctorId input.slotId with
  | none => .error .SlotNotFound
  | some slot =>
    if slot.booked then .error .SlotAlreadyBooked
    else if slot.start < now then .error .SlotInPast
    else
      .ok (mkAppointment clientId input slot now appointmentId,
        { slots := writeSlot store.slots input.doctorId input.slotId
            { slot with booked := true }
          appointments := store.appointments
            ++ [mkAppointment clientId input slot now appointmentId] })

/-- Source `BookingService.updateAppointmentStatus`: an unconditional
`updateDoc(appointmentRef, { status, updatedAt: Timestamp.now() })`.
It performs no check of the current status. -/
def updateAppointmentStatus (appt : Appointment) (status : AppointmentStatus)
    (now : Int) : Appointment :=
  { appt with status := status, updatedAt := now }

/-- Modelled from the spec (§4.3 AppointmentStateMachine — no such check
exists anywhere in the source): the legal transitions
`pending → confirmed`, `pending → cancelled`, `confirmed → completed`,
`confirmed → cancelled`. -/
def isLegalTransition : AppointmentStatus → AppointmentStatus → Bool
  | .pending, .confirmed => true
  | .pending, .cancelled => true
  | .confirmed, .completed => true
  | .confirmed, .cancelled => true
  | _, _ => false

/-- Source `AvailabilityService.deleteSlot`: an unconditional `deleteDoc(slotRef)` —
the document is removed whatever its `booked` flag. -/
def deleteSlot (store : Store) (doctorId slotId : String) : Store :=
  { store with slots := store.slots.filter (fun p => !(p.1 == (doctorId, slotId))) }

/-- Slot creation input, from `availability.types.ts`
(`AvailabilitySlotInput`): a start and an end instant. -/
structure SlotInput : Type where
  start : Int
  stop : Int
deriving DecidableEq, Repr

/-- Errors thrown by `AvailabilityService.createSlot`, one per `throw` site
(`'Start time must be before end time'`, `'Cannot create slots in the
past'`). -/
inductive CreateSlotError : Type
  | InvalidTimeRange
  | SlotInPast
deriving DecidableEq, Repr

/-- The slot document written by `createSlot` / `createSlots`:
`{ doctorId, start, end, booked: false, createdAt: Timestamp.now() }`. -/
def mkSlotDoc (doctorId : String) (input : SlotInput) (now : Int) : Slot :=
  { doctorId := doctorId
    start := input.start
    stop := input.stop
    booked := false
    createdAt := now }

/-- Source `AvailabilityService.createSlot`: reject `start >= end`, then reject
`start < new Date()`, then `addDoc` (modelled as appending a document under
the fresh id `newId`) and return the new id. -/
def createSlot (store : Store) (doctorId : String) (input : SlotInput)
    (now : Int) (newId : String) : Except CreateSlotError (String × Store) :=
  if input.start ≥ input.stop then .error .InvalidTimeRange
  else if input.start < now then .error .SlotInPast
  else .ok (newId,
    { store with slots :=
        store.slots ++ [((doctorId, newId), mkSlotDoc doctorId input now)] })

/-- Batch result, from `availability.types.ts` (`SlotCreationResult`). -/
structure SlotCreationResult : Type where
  slotIds : List String
  successCount : Nat
  errorCount : Nat
deriving DecidableEq, Repr

/-- The `for (const slotInput of slots)` loop of
`AvailabilityService.createSlots`. `i` numbers the candidates; `write i`
is the storage layer's outcome for the `i`-th candidate: `some id` when
`addDoc` succeeds with fresh id `id`, `none` when it throws (the `catch`
branch, which just counts an error). Invalid candidates (`start >= end`,
or `start < now`) are counted as errors and skipped. -/
def createSlotsGo (doctorId : String) (now : Int) (write : Nat → Option String) :
    List SlotInput → Nat → Store → List String → Nat → Nat →
    SlotCreationResult × Store
  | [], _, store, ids, succ, err =>
    ({ slotIds := ids, successCount := succ, errorCount := err }, store)
  | input :: rest, i, store, ids, succ, err =>
    if input.start ≥ input.stop then
      createSlotsGo doctorId now write rest (i + 1) store ids succ (err + 1)
    else if input.start < now then
      createSlotsGo doctorId now write rest (i + 1) store ids succ (err + 1)
    else
      match write i with
      | some id =>
        createSlotsGo doctorId now write rest (i + 1)
          { store with slots :=
              store.slots ++ [((doctorId, id), mkSlotDoc doctorId input now)] }
          (ids ++ [id]) (succ + 1) err
      | none =>
        createSlotsGo doctorId now write rest (i + 1) store ids succ (err + 1)

/-- Source `AvailabilityService.createSlots`. -/
def createSlots (store : Store) (doctorId : String) (slots : List SlotInput)
    (now : Int) (write : Nat → Option String) : SlotCreationResult × Store :=
  createSlotsGo doctorId now write slots 0 store [] 0 0

/-- The candidates a batch creation accepts, paired with the ids their
writes mint: the `i`-th candidate is kept when it is well-formed
(`start < stop`), not in the past (`now ≤ start`), and its storage write
succeeds. -/
def acceptedWrites (now : Int) (write : Nat → Option String) :
    List SlotInput → Nat → List (String × SlotInput)
  | [], _ => []
  | input :: rest, i =>
    (if input.start < input.stop ∧ now ≤ input.start then
      match write i with
      | some id => [(id, input)]
      | none => []
     else []) ++ acceptedWrites now write rest (i + 1)

/-- Result of the join-time validation, from `video.types.ts`
(`TimeValidationResult`). -/
structure TimeValidationResult : Type where
  canJoin : Bool
  reason : Option String
  timeUntilStart : Int
deriving DecidableEq, Repr

/-- Source `JOIN_TIME_WINDOW_MS = 5 * 60 * 1000`: users can join ±5 minutes from
the appointment start time. -/
def JOIN_TIME_WINDOW_MS : Int := 5 * 60 * 1000

/-- JS `Math.ceil(a / b)` for integers with `b > 0`, as the source computes
`Math.ceil(timeUntilStart / (60 * 1000))`: the negated floor division of the
negation. -/
def jsCeilDiv (a b : Int) : Int := -((-a) / b)

/-- Source `canJoinAppointment(slotStart)` with `now = new Date()` made explicit:
`timeUntilStart = startTime - now`, `timeDifference = Math.abs(...)`;
within the window → allowed; `timeUntilStart > window` → "starts in N
minutes" where `N = Math.ceil(timeUntilStart / 60000)`; otherwise the
consultation has ended. -/
def canJoinAppointment (slotStart nowMs : Int) : TimeValidationResult :=
  if ((slotStart - nowMs).natAbs : Int) ≤ JOIN_TIME_WINDOW_MS then
    { canJoin := true, reason := none, timeUntilStart := slotStart - nowMs }
  else if slotStart - nowMs > JOIN_TIME_WINDOW_MS then
    { canJoin := false
      reason := some ("Consultation starts in "
        ++ toString (jsCeilDiv (slotStart - nowMs) (60 * 1000))
        ++ " minutes. Please wait.")
      timeUntilStart := slotStart - nowMs }
  else
    { canJoin := false
      reason := some "This consultation has already ended."
      timeUntilStart := slotStart - nowMs }

/-- Invariant: every persisted slot satisfies `start < end`. -/
def slotInvariant (store : Store) : Prop :=
  ∀ p ∈ store.slots, p.2.start < p.2.stop

instance (store : Store) : Decidable (slotInvariant store) :=
  List.decidableBAll _ _

/-- JS `str.split(':')` at the character level (single-character separator,
as `createRecurringSlots` uses it on the `HH:mm` time strings). -/
def splitOnColon : List Char → List Char → List (List Char)
  | [], acc => [acc.reverse]
  | c :: cs, acc =>
    if c = ':' then acc.reverse :: splitOnColon cs []
    else splitOnColon cs (c :: acc)

/-- JS `Number(str)` on the digit strings the validated `HH:mm` inputs
provide (`Number('') = 0`); a non-digit character yields `none`
(JS `NaN`). -/
def jsNumberOfDigits (cs : List Char) : Option Int :=
  cs.foldl
    (fun acc c =>
      acc.bind (fun n =>
        if c.isDigit then some (n * 10 + ((c.toNat : Int) - 48)) else none))
    (some 0)

/-- Models `const [h, m] = s.split(':').map(Number)` followed by
`setHours(h, m, 0, 0)`, expressed as minutes after midnight (a `NaN`
collapses to 0; the claims only concern validated `HH:mm` inputs). -/
def parseTimeMinutes (s : String) : Int :=
  match splitOnColon s.toList [] with
  | h :: m :: _ => (jsNumberOfDigits h).getD 0 * 60 + (jsNumberOfDigits m).getD 0
  | _ => 0

/-- Source `RecurringSlotConfig` from `availability.types.ts`: the dates are
instants in minutes (`Date` values), the times day-local `HH:mm` strings. -/
structure RecurringSlotConfig : Type where
  startDate : Int
  endDate : Int
  startTime : String
  endTime : String
  daysOfWeek : List Int
  durationMinutes : Int
deriving DecidableEq, Repr

/-- JS `Date.prototype.getDay` in DST-free local time, on minutes since the
epoch: 0 = Sunday, and day 0 (1970-01-01) was a Thursday. -/
def getDay (t : Int) : Int := (t / 1440 + 4) % 7

/-- JS `d.setHours(h, m, 0, 0)`: same calendar day, clock set to `timeMin`
minutes after midnight. -/
def dayStartAt (t timeMin : Int) : Int := (t / 1440) * 1440 + timeMin

/-- The inner `while (slotStart < dayEnd)` loop of `createRecurringSlots`,
with explicit fuel (the callers below always supply enough; the source loop
diverges for `durationMinutes ≤ 0`, where the fuel would run out instead):
push `[slotStart, slotStart + duration)` whenever it fits
(`slotEnd <= dayEnd`), then advance `slotStart` by `durationMinutes`. -/
def slotLoop (dayEnd dur : Int) : Nat → Int → List SlotInput
  | 0, _ => []
  | fuel + 1, slotStart =>
    if slotStart < dayEnd then
      (if slotStart + dur ≤ dayEnd then [⟨slotStart, slotStart + dur⟩] else [])
        ++ slotLoop dayEnd dur fuel (slotStart + dur)
    else []

/-- The outer `while (currentDate <= endDate)` loop of
`createRecurringSlots`: on each day whose `getDay()` is in `daysOfWeek`,
run the inner loop from `setHours(startTime)` to `setHours(endTime)`, then
advance one calendar day. -/
def dayLoop (endDate : Int) (daysOfWeek : List Int) (st et dur : Int) :
    Nat → Int → List SlotInput
  | 0, _ => []
  | fuel + 1, current =>
    if current ≤ endDate then
      (if daysOfWeek.contains (getDay current) then
        slotLoop (dayStartAt current et) dur ((et - st).toNat + 1)
          (dayStartAt current st)
       else [])
        ++ dayLoop endDate daysOfWeek st et dur fuel (current + 1440)
    else []

/-- The slot-generation part of `AvailabilityService.createRecurringSlots`:
the `slots` array the day loop builds before handing it to `createSlots`. -/
def generateRecurringSlots (cfg : RecurringSlotConfig) : List SlotInput :=
  dayLoop cfg.endDate cfg.daysOfWeek (parseTimeMinutes cfg.startTime)
    (parseTimeMinutes cfg.endTime) cfg.durationMinutes
    ((cfg.endDate - cfg.startDate).toNat / 1440 + 1) cfg.startDate

/-- Source `AvailabilityService.createRecurringSlots`: generate the candidates,
then persist them through `createSlots`. -/
def createRecurringSlots (store : Store) (doctorId : String)
    (cfg : RecurringSlotConfig) (now : Int) (write : Nat → Option String) :
    SlotCreationResult × Store :=
  createSlots store doctorId (generateRecurringSlots cfg) now write

/-- Day-of-week of calendar day `d` (0 = Sunday; day 0 was a Thursday). -/
def weekday (d : Int) : Int := (d + 4) % 7

/-- The spec's description of one day's slots: `n` consecutive abutting
slots of exactly `dur` minutes, the first starting at `start`. -/
def specDaySlots (start dur : Int) (n : Nat) : List SlotInput :=
  (List.range n).map
    (fun k : Nat => ⟨start + (k : Int) * dur, start + ((k : Int) + 1) * dur⟩)

/-- The spec's description of one calendar day `d`: when its weekday is
selected, exactly `⌊(endTime − startTime) / duration⌋` slots starting at
`startTime`; otherwise nothing. -/
def specDayPiece (daysOfWeek : List Int) (st et dur d : Int) : List SlotInput :=
  if daysOfWeek.contains (weekday d) then
    specDaySlots (1440 * d + st) dur ((et - st) / dur).toNat
  else []

/-- The spec's description of the whole generation: the day pieces of the
`numDays` consecutive calendar days from `startDay`. -/
def specSlots (startDay : Int) (numDays : Nat) (daysOfWeek : List Int)
    (st et dur : Int) : List SlotInput :=
  (List.range numDays).flatMap
    (fun i => specDayPiece daysOfWeek st et dur (startDay + (i : Int)))

/-- The spec's Monday-to-Friday 09:00–10:00 half-hour example: Monday
1970-01-05 (day 4) through Friday 1970-01-09 (day 8). -/
def exampleRecurringConfig : RecurringSlotConfig :=
  { startDate := 1440 * 4
    endDate := 1440 * 8
    startTime := "09:00"
    endTime := "10:00"
    daysOfWeek := [1, 2, 3, 4, 5]
    durationMinutes := 30 }

/-- Every candidate increments exactly one of the two counters. -/
theorem createSlotsGo_counts (doctorId : String) (now : Int)
    (write : Nat → Option String) :
    ∀ (slots : List SlotInput) (i : Nat) (store : Store) (ids : List String)
      (succ err : Nat),
      (createSlotsGo doctorId now write slots i store ids succ err).1.successCount
        + (createSlotsGo doctorId now write slots i store ids succ err).1.errorCount
        = succ + err + slots.length := by
  intro slots
  induction slots with
  | nil => intro i store ids succ err; simp [createSlotsGo]
  | cons input rest ih =>
    intro i store ids succ err
    by_cases h1 : input.start ≥ input.stop
    · simp only [createSlotsGo, if_pos h1]; rw [ih, List.length_cons]; omega
    · by_cases h2 : input.start < now
      · simp only [createSlotsGo, if_neg h1, if_pos h2]; rw [ih, List.length_cons]; omega
      · cases hw : write i with
        | some id =>
          simp only [createSlotsGo, if_neg h1, if_neg h2, hw]; rw [ih, List.length_cons]; omega
        | none =>
          simp only [createSlotsGo, if_neg h1, if_neg h2, hw]; rw [ih, List.length_cons]; omega

/-- The returned ids are the accumulator followed by the accepted writes. -/
theorem createSlotsGo_slotIds (doctorId : String) (now : Int)
    (write : Nat → Option String) :
    ∀ (slots : List SlotInput) (i : Nat) (store : Store) (ids : List String)
      (succ err : Nat),
      (createSlotsGo doctorId now write slots i store ids succ err).1.slotIds
        = ids ++ (acceptedWrites now write slots i).map Prod.fst := by
  intro slots
  induction slots with
  | nil => intro i store ids succ err; simp [createSlotsGo, acceptedWrites]
  | cons input rest ih =>
    intro i store ids succ err
    by_cases h1 : input.start ≥ input.stop
    · have hacc : ¬ (input.start < input.stop ∧ now ≤ input.start) := by omega
      simp only [createSlotsGo, if_pos h1, acceptedWrites, if_neg hacc]
      rw [ih]; simp
    · by_cases h2 : input.start < now
      · have hacc : ¬ (input.start < input.stop ∧ now ≤ input.start) := by omega
        simp only [createSlotsGo, if_neg h1, if_pos h2, acceptedWrites, if_neg hacc]
        rw [ih]; simp
      · have hacc : input.start < input.stop ∧ now ≤ input.start := by omega
        cases hw : write i with
        | some id =>
          simp only [createSlotsGo, if_neg h1, if_neg h2, hw, acceptedWrites,
            if_pos hacc]
          rw [ih]; simp
        | none =>
          simp only [createSlotsGo, if_neg h1, if_neg h2, hw, acceptedWrites,
            if_pos hacc]
          rw [ih]; simp

/-- The success counter counts the accepted writes. -/
theorem createSlotsGo_successCount (doctorId : String) (now : Int)
    (write : Nat → Option String) :
    ∀ (slots : List SlotInput) (i : Nat) (store : Store) (ids : List String)
      (succ err : Nat),
      (createSlotsGo doctorId now write slots i store ids succ err).1.successCount
        = succ + (acceptedWrites now write slots i).length := by
  intro slots
  induction slots with
  | nil => intro i store ids succ err; simp [createSlotsGo, acceptedWrites]
  | cons input rest ih =>
    intro i store ids succ err
    by_cases h1 : input.start ≥ input.stop
    · have hacc : ¬ (input.start < input.stop ∧ now ≤ input.start) := by omega
      simp only [createSlotsGo, if_pos h1, acceptedWrites, if_neg hacc]
      rw [ih]; simp
    · by_cases h2 : input.start < now
      · have hacc : ¬ (input.start < input.stop ∧ now ≤ input.start) := by omega
        simp only [createSlotsGo, if_neg h1, if_pos h2, acceptedWrites, if_neg hacc]
        rw [ih]; simp
      · have hacc : input.start < input.stop ∧ now ≤ input.start := by omega
        cases hw : write i with
        | some id =>
          simp only [createSlotsGo, if_neg h1, if_neg h2, hw, acceptedWrites,
            if_pos hacc]
          rw [ih]; simp; omega
        | none =>
          simp only [createSlotsGo, if_neg h1, if_neg h2, hw, acceptedWrites,
            if_pos hacc]
          rw [ih]; simp

/-- The final store: the accepted writes are appended as slot documents,
and nothing else — in particular the appointments — changes. -/
theorem createSlotsGo_store (doctorId : String) (now : Int)
    (write : Nat → Option String) :
    ∀ (slots : List SlotInput) (i : Nat) (store : Store) (ids : List String)
      (succ err : Nat),
      (createSlotsGo doctorId now write slots i store ids succ err).2
        = { slots := store.slots ++ (acceptedWrites now write slots i).map
              (fun p => ((doctorId, p.1), mkSlotDoc doctorId p.2 now))
            appointments := store.appointments } := by
  intro slots
  induction slots with
  | nil => intro i store ids succ err; simp [createSlotsGo, acceptedWrites]
  | cons input rest ih =>
    intro i store ids succ err
    by_cases h1 : input.start ≥ input.stop
    · have hacc : ¬ (input.start < input.stop ∧ now ≤ input.start) := by omega
      simp only [createSlotsGo, if_pos h1, acceptedWrites, if_neg hacc]
      rw [ih]; simp
    · by_cases h2 : input.start < now
      · have hacc : ¬ (input.start < input.stop ∧ now ≤ input.start) := by omega
        simp only [createSlotsGo, if_neg h1, if_pos h2, acceptedWrites, if_neg hacc]
        rw [ih]; simp
      · have hacc : input.start < input.stop ∧ now ≤ input.start := by omega
        cases hw : write i with
        | some id =>
          simp only [createSlotsGo, if_neg h1, if_neg h2, hw, acceptedWrites,
            if_pos hacc]
          rw [ih]; simp
        | none =>
          simp only [createSlotsGo, if_neg h1, if_neg h2, hw, acceptedWrites,
            if_pos hacc]
          rw [ih]; simp

/-- Every accepted candidate is well-formed and not in the past. -/
theorem acceptedWrites_valid (now : Int) (write : Nat → Option String) :
    ∀ (slots : List SlotInput) (i : Nat) (p : String × SlotInput),
      p ∈ acceptedWrites now write slots i →
      p.2.start < p.2.stop ∧ now ≤ p.2.start := by
  intro slots
  induction slots with
  | nil => intro i p hp; simp [acceptedWrites] at hp
  | cons input rest ih =>
    intro i p hp
    by_cases hacc : input.start < input.stop ∧ now ≤ input.start
    · rw [acceptedWrites, if_pos hacc] at hp
      rcases List.mem_append.mp hp with hp | hp
      · cases hw : write i with
        | some id => rw [hw] at hp; simp at hp; subst hp; exact hacc
        | none => rw [hw] at hp; simp at hp
      · exact ih (i + 1) p hp
    · rw [acceptedWrites, if_neg hacc] at hp
      simp only [List.nil_append] at hp
      exact ih (i + 1) p hp

end DoctorOnCall

namespace DoctorOnCall

/-- A concrete pending appointment used to exhibit behaviour at a point. -/
def samplePendingAppointment : Appointment :=
  { id := "a1"
    clientId := "c1"
    doctorId := "d1"
    slotStart := 1000
    slotEnd := 2000
    status := .pending
    roomName := "doconcall-a1-0"
    notes := none
    createdAt := 0
    updatedAt := 0 }

/-- A concrete already-booked slot. -/
def sampleBookedSlot : Slot :=
  { doctorId := "d1", start := 1000, stop := 2000, booked := true, createdAt := 0 }

/-- A store holding only the booked slot `("d1","s1")`. -/
def sampleBookedStore : Store :=
  { slots := [(("d1", "s1"), sampleBookedSlot)], appointments := [] }

/-- A concrete unbooked future slot. -/
def sampleFreeSlot : Slot :=
  { doctorId := "d1", start := 1000, stop := 2000, booked := false, createdAt := 0 }

/-- A store holding only the unbooked slot `("d1","s1")`. -/
def sampleFreeStore : Store :=
  { slots := [(("d1", "s1"), sampleFreeSlot)], appointments := [] }

/-- A store with no slots at all. -/
def emptyStore : Store :=
  { slots := [], appointments := [] }

/-- The booking input targeting slot `("d1","s1")`. -/
def sampleInput : BookingInput :=
  { doctorId := "d1", slotId := "s1", notes := none }

/-- Two booking attempts against the same `(doctorId, slotId)`, executed in
the serial order guaranteed by the store's transactional primitive
(`runTransaction` is serializable, and a failed transaction writes
nothing). -/
def bookTwice (store : Store) (client1 client2 : String) (input : BookingInput)
    (now1 now2 : Int) (id1 id2 : String) :
    Except BookingError Appointment × Except BookingError Appointment × Store :=
  match bookAppointment store client1 input now1 id1 with
  | .ok (a, store1) =>
    match bookAppointment store1 client2 input now2 id2 with
    | .ok (b, store2) => (.ok a, .ok b, store2)
    | .error e => (.ok a, .error e, store1)
  | .error e =>
    match bookAppointment store client2 input now2 id2 with
    | .ok (b, store2) => (.error e, .ok b, store2)
    | .error e2 => (.error e, .error e2, store)

/-- The store after `"c1"` books `("d1","s1")` at time 500 with fresh
appointment id `"a1"`. -/
def sampleStoreAfterBooking : Store :=
  { slots := [(("d1", "s1"), { sampleFreeSlot with booked := true })]
    appointments := [mkAppointment "c1" sampleInput sampleFreeSlot 500 "a1"] }

/-- Finding over a `writeSlot` at the written key: the written value is
found exactly when the key was present before. -/
theorem find?_writeSlot_self (l : List ((String × String) × Slot))
    (d s : String) (slot' : Slot) :
    (writeSlot l d s slot').find? (fun p => p.1 == (d, s)) =
      (l.find? (fun p => p.1 == (d, s))).map (fun _ => ((d, s), slot')) := by
  induction l with
  | nil => rfl
  | cons p t ih =>
    by_cases h : p.1 = (d, s)
    · simp [writeSlot, List.find?, h]
    · have hb : (p.1 == (d, s)) = false := beq_eq_false_iff_ne.mpr h
      simpa [writeSlot, List.find?, hb] using ih

/-- Lookup after `writeSlot` at the same key. -/
theorem lookupSlotIn_writeSlot_self (l : List ((String × String) × Slot))
    (d s : String) (slot slot' : Slot) (h : lookupSlotIn l d s = some slot) :
    lookupSlotIn (writeSlot l d s slot') d s = some slot' := by
  unfold lookupSlotIn at h ⊢
  rw [find?_writeSlot_self]
  cases hf : l.find? (fun p => p.1 == (d, s)) with
  | none => rw [hf] at h; simp at h
  | some q => simp

/-- C1: `pending → completed` is not a legal transition of the spec's state
machine, yet `updateAppointmentStatus` applies it: the code performs an
unconditional `updateDoc` with no validation and no `IllegalStateTransition`
error path, so the illegal transition is silently applied instead of being
rejected. The same evaluation shows a transition out of the terminal status
`completed` is applied as well. -/
theorem updateAppointmentStatus_applies_illegal_transition :
    isLegalTransition .pending .completed = false ∧
    (updateAppointmentStatus samplePendingAppointment .completed 5).status
      = .completed ∧
    isLegalTransition .completed .pending = false ∧
    (updateAppointmentStatus
      (updateAppointmentStatus samplePendingAppointment .completed 5)
      .pending 6).status = .pending := by
  refine ⟨rfl, rfl, rfl, rfl⟩

/-- C4: `deleteSlot` removes a slot whose `booked` flag is `true`: the code
is an unconditional `deleteDoc` with no guard on `booked`, so a booked slot
is deleted rather than the operation failing and leaving the record. -/
theorem deleteSlot_removes_booked_slot :
    (lookupSlot sampleBookedStore "d1" "s1").map Slot.booked = some true ∧
    lookupSlot (deleteSlot sampleBookedStore "d1" "s1") "d1" "s1" = none := by
  refine ⟨rfl, rfl⟩

/-- C2 counterexample: a slot whose `start` equals the observed time is not
strictly in the future, so by the claim the booking should fail with
`SlotInPast`; the code's guard is the strict comparison
`slotStart < new Date()`, so the booking succeeds instead. -/
theorem bookAppointment_boundary_counterexample :
    ¬ (1000 : Int) < sampleFreeSlot.start ∧
    lookupSlot sampleFreeStore "d1" "s1" = some sampleFreeSlot ∧
    sampleFreeSlot.booked = false ∧
    bookAppointment sampleFreeStore "c1" sampleInput 1000 "a1"
      ≠ .error .SlotInPast ∧
    (bookAppointment sampleFreeStore "c1" sampleInput 1000 "a1").isOk = true := by
  refine ⟨by decide, rfl, rfl, by decide, rfl⟩

/-- C2 (amended): `bookAppointment` validates in the order missing slot →
already booked → past, failing with `SlotNotFound`, `SlotAlreadyBooked`,
and — when the slot's start is strictly before the observed time —
`SlotInPast`; otherwise (start at or after the observed time) it returns an
appointment with `status = pending` whose `slotStart`/`slotEnd` are copied
from the slot. -/
theorem bookAppointment_validation (store : Store) (clientId : String)
    (input : BookingInput) (now : Int) (appointmentId : String) :
    (lookupSlot store input.doctorId input.slotId = none →
      bookAppointment store clientId input now appointmentId
        = .error .SlotNotFound) ∧
    (∀ slot, lookupSlot store input.doctorId input.slotId = some slot →
      slot.booked = true →
      bookAppointment store clientId input now appointmentId
        = .error .SlotAlreadyBooked) ∧
    (∀ slot, lookupSlot store input.doctorId input.slotId = some slot →
      slot.booked = false → slot.start < now →
      bookAppointment store clientId input now appointmentId
        = .error .SlotInPast) ∧
    (∀ slot, lookupSlot store input.doctorId input.slotId = some slot →
      slot.booked = false → ¬ slot.start < now →
      (bookAppointment store clientId input now appointmentId).map
          (fun p => (p.1.status, p.1.slotStart, p.1.slotEnd))
        = .ok (.pending, slot.start, slot.stop)) := by
  refine ⟨fun hnone => ?_, fun slot hsome hb => ?_, fun slot hsome hb hpast => ?_,
    fun slot hsome hb hfut => ?_⟩
  · simp [bookAppointment, hnone]
  · simp [bookAppointment, hsome, hb]
  · simp [bookAppointment, hsome, hb, hpast]
  · simp [bookAppointment, hsome, hb, hfut, mkAppointment, Except.map]

/-- C2 witness: the four validation outcomes at concrete stores. -/
theorem bookAppointment_validation_witness :
    bookAppointment emptyStore "c1" sampleInput 500 "a1" = .error .SlotNotFound ∧
    bookAppointment sampleBookedStore "c1" sampleInput 500 "a1"
      = .error .SlotAlreadyBooked ∧
    bookAppointment sampleFreeStore "c1" sampleInput 1500 "a1"
      = .error .SlotInPast ∧
    (bookAppointment sampleFreeStore "c1" sampleInput 500 "a1").map
        (fun p => (p.1.status, p.1.slotStart, p.1.slotEnd))
      = .ok (.pending, 1000, 2000) := by
  refine ⟨(bookAppointment_validation emptyStore "c1" sampleInput 500 "a1").1 rfl,
    (bookAppointment_validation sampleBookedStore "c1" sampleInput 500 "a1").2.1
      sampleBookedSlot rfl rfl,
    (bookAppointment_validation sampleFreeStore "c1" sampleInput 1500 "a1").2.2.1
      sampleFreeSlot rfl rfl (by decide),
    (bookAppointment_validation sampleFreeStore "c1" sampleInput 500 "a1").2.2.2
      sampleFreeSlot rfl rfl (by decide)⟩

/-- C3: when two booking calls race on the same existing, unbooked,
not-yet-started slot, whichever transaction serializes first succeeds, the
other fails with `SlotAlreadyBooked`; afterwards the slot is `booked = true`
and exactly one appointment — the winner's — was added to the store. The
two serialization orders are both instances (the winner's client id, time
and fresh id are arbitrary), and atomicity of each call is the store's
`runTransaction` contract, under which a transaction commits all of its
writes or none. -/
theorem bookAppointment_race (store : Store) (client1 client2 : String)
    (input : BookingInput) (now1 now2 : Int) (id1 id2 : String) (slot : Slot)
    (hslot : lookupSlot store input.doctorId input.slotId = some slot)
    (hunbooked : slot.booked = false)
    (hfut1 : now1 ≤ slot.start) (hfut2 : now2 ≤ slot.start) :
    (bookTwice store client1 client2 input now1 now2 id1 id2).1
      = .ok (mkAppointment client1 input slot now1 id1) ∧
    (bookTwice store client1 client2 input now1 now2 id1 id2).2.1
      = .error .SlotAlreadyBooked ∧
    lookupSlot (bookTwice store client1 client2 input now1 now2 id1 id2).2.2
        input.doctorId input.slotId = some { slot with booked := true } ∧
    (bookTwice store client1 client2 input now1 now2 id1 id2).2.2.appointments
      = store.appointments ++ [mkAppointment client1 input slot now1 id1] := by
  have hnot1 : ¬ slot.start < now1 := by omega
  have h1 : bookAppointment store client1 input now1 id1
      = .ok (mkAppointment client1 input slot now1 id1,
          { slots := writeSlot store.slots input.doctorId input.slotId
              { slot with booked := true }
            appointments := store.appointments
              ++ [mkAppointment client1 input slot now1 id1] }) := by
    simp [bookAppointment, hslot, hunbooked, hnot1]
  have hlook1 : lookupSlot
      { slots := writeSlot store.slots input.doctorId input.slotId
          { slot with booked := true }
        appointments := store.appointments
          ++ [mkAppointment client1 input slot now1 id1] }
      input.doctorId input.slotId = some { slot with booked := true } :=
    lookupSlotIn_writeSlot_self store.slots input.doctorId input.slotId
      slot _ hslot
  have h2 : bookAppointment
      { slots := writeSlot store.slots input.doctorId input.slotId
          { slot with booked := true }
        appointments := store.appointments
          ++ [mkAppointment client1 input slot now1 id1] }
      client2 input now2 id2 = .error .SlotAlreadyBooked := by
    simp [bookAppointment, hlook1]
  refine ⟨?_, ?_, ?_, ?_⟩ <;> simp [bookTwice, h1, h2, hlook1]

/-- C3 witness: the race on the concrete free slot, first caller booking at
time 500, second at time 700. -/
theorem bookAppointment_race_witness :
    (bookTwice sampleFreeStore "c1" "c2" sampleInput 500 700 "a1" "a2").1
      = .ok (mkAppointment "c1" sampleInput sampleFreeSlot 500 "a1") ∧
    (bookTwice sampleFreeStore "c1" "c2" sampleInput 500 700 "a1" "a2").2.1
      = .error .SlotAlreadyBooked ∧
    lookupSlot (bookTwice sampleFreeStore "c1" "c2" sampleInput
        500 700 "a1" "a2").2.2 "d1" "s1"
      = some { sampleFreeSlot with booked := true } ∧
    (bookTwice sampleFreeStore "c1" "c2" sampleInput
        500 700 "a1" "a2").2.2.appointments
      = [mkAppointment "c1" sampleInput sampleFreeSlot 500 "a1"] := by
  simpa using bookAppointment_race sampleFreeStore "c1" "c2" sampleInput
    500 700 "a1" "a2" sampleFreeSlot rfl rfl (by decide) (by decide)

/-- C7 counterexample: a candidate whose start equals the generation time is
not strictly in the future, so by the claim it would have to be counted as
rejected; the code's guard is the strict `start < new Date()`, so the
candidate is persisted and counted as a success instead. -/
theorem createSlots_boundary_counterexample :
    (⟨1000, 2000⟩ : SlotInput).start ≤ 1000 ∧
    (createSlots emptyStore "d1" [⟨1000, 2000⟩] 1000 (fun _ => some "s9")).1
      = { slotIds := ["s9"], successCount := 1, errorCount := 0 } := by
  refine ⟨by decide, rfl⟩

/-- C7 (amended): batch creation is partial-success-tolerant. Each candidate
is handled independently: it is persisted exactly when it is well-formed
(`start < end`), not strictly before the generation time, and its storage
write succeeds; all other candidates are counted in `errorCount` without
aborting the batch. The caller receives the created ids, `successCount`
equals their number, and `successCount + errorCount` equals the number of
candidates; appointments are untouched. -/
theorem createSlots_partial_success (store : Store) (doctorId : String)
    (slots : List SlotInput) (now : Int) (write : Nat → Option String) :
    (createSlots store doctorId slots now write).1.slotIds
      = (acceptedWrites now write slots 0).map Prod.fst ∧
    (createSlots store doctorId slots now write).1.successCount
      = (createSlots store doctorId slots now write).1.slotIds.length ∧
    (createSlots store doctorId slots now write).1.successCount
      + (createSlots store doctorId slots now write).1.errorCount
      = slots.length ∧
    (createSlots store doctorId slots now write).2
      = { slots := store.slots ++ (acceptedWrites now write slots 0).map
            (fun p => ((doctorId, p.1), mkSlotDoc doctorId p.2 now))
          appointments := store.appointments } := by
  have hids := createSlotsGo_slotIds doctorId now write slots 0 store [] 0 0
  have hsucc := createSlotsGo_successCount doctorId now write slots 0 store [] 0 0
  have hcount := createSlotsGo_counts doctorId now write slots 0 store [] 0 0
  have hstore := createSlotsGo_store doctorId now write slots 0 store [] 0 0
  refine ⟨by simpa [createSlots] using hids, ?_, by simpa [createSlots] using hcount,
    by simpa [createSlots] using hstore⟩
  simp only [createSlots] at *
  rw [hsucc, hids]
  simp

/-- C9: persisted slots always satisfy `start < end` and are created
unbooked. A single `createSlot` rejects `start ≥ end` with the
`'Start time must be before end time'` error; a successful `createSlot`
and any batch `createSlots` preserve the store invariant and append only
documents with `booked = false`. -/
theorem slot_creation_invariant :
    (∀ (store : Store) (doctorId : String) (input : SlotInput) (now : Int)
      (newId : String), input.start ≥ input.stop →
      createSlot store doctorId input now newId = .error .InvalidTimeRange) ∧
    (∀ (store : Store) (doctorId : String) (input : SlotInput) (now : Int)
      (newId sid : String) (store' : Store),
      createSlot store doctorId input now newId = .ok (sid, store') →
      (slotInvariant store → slotInvariant store') ∧
      ∀ p ∈ store'.slots, p ∉ store.slots → p.2.booked = false) ∧
    (∀ (store : Store) (doctorId : String) (slots : List SlotInput) (now : Int)
      (write : Nat → Option String),
      (slotInvariant store →
        slotInvariant (createSlots store doctorId slots now write).2) ∧
      ∀ p ∈ (createSlots store doctorId slots now write).2.slots,
        p ∉ store.slots → p.2.booked = false) := by
  refine ⟨?_, ?_, ?_⟩
  · intro store doctorId input now newId h
    rw [createSlot, if_pos h]
  · intro store doctorId input now newId sid store' h
    by_cases h1 : input.start ≥ input.stop
    · rw [createSlot, if_pos h1] at h; exact absurd h (by simp)
    · by_cases h2 : input.start < now
      · rw [createSlot, if_neg h1, if_pos h2] at h; exact absurd h (by simp)
      · rw [createSlot, if_neg h1, if_neg h2] at h
        injection h with h'
        injection h' with ha hb
        subst hb
        constructor
        · intro hinv p hp
          rcases List.mem_append.mp hp with hmem | hmem
          · exact hinv p hmem
          · simp at hmem
            rw [hmem]
            simp [mkSlotDoc]
            omega
        · intro p hp hnot
          rcases List.mem_append.mp hp with hmem | hmem
          · exact absurd hmem hnot
          · simp at hmem
            rw [hmem]
            rfl
  · intro store doctorId slots now write
    have hstore := createSlotsGo_store doctorId now write slots 0 store [] 0 0
    simp only [createSlots]
    rw [hstore]
    constructor
    · intro hinv p hp
      rcases List.mem_append.mp hp with hmem | hmem
      · exact hinv p hmem
      · obtain ⟨q, hq, rfl⟩ := List.mem_map.mp hmem
        exact (acceptedWrites_valid now write slots 0 q hq).1
    · intro p hp hnot
      rcases List.mem_append.mp hp with hmem | hmem
      · exact absurd hmem hnot
      · obtain ⟨q, hq, rfl⟩ := List.mem_map.mp hmem
        rfl

/-- C9 witness: the rejection and the invariant at concrete inputs: a
reversed input is rejected; a batch over one valid and one reversed
candidate leaves a store satisfying the invariant. -/
theorem slot_creation_invariant_witness :
    createSlot emptyStore "d1" ⟨2000, 1000⟩ 0 "s1" = .error .InvalidTimeRange ∧
    slotInvariant (createSlots emptyStore "d1" [⟨1000, 2000⟩, ⟨3000, 2500⟩]
      500 (fun i => some (toString i))).2 := by
  refine ⟨slot_creation_invariant.1 emptyStore "d1" ⟨2000, 1000⟩ 0 "s1" (by decide),
    (slot_creation_invariant.2.2 emptyStore "d1" [⟨1000, 2000⟩, ⟨3000, 2500⟩]
      500 (fun i => some (toString i))).1 (by decide)⟩

/-- C6: with the half-window `W = 5` minutes, joining is allowed iff
`|slotStart - now| ≤ 5` minutes; more than 5 minutes before the start the
validator refuses with a "starts in N minutes" reason in which `N` is the
ceiling of the minutes remaining (characterized by
`60000·(N−1) < slotStart − now ≤ 60000·N`); more than 5 minutes after the
start it refuses with the "already ended" reason. -/
theorem canJoinAppointment_window (nowMs slotStart : Int) :
    ((canJoinAppointment slotStart nowMs).canJoin = true ↔
      (slotStart - nowMs).natAbs ≤ 5 * 60 * 1000) ∧
    (nowMs + 5 * 60 * 1000 < slotStart →
      canJoinAppointment slotStart nowMs
        = { canJoin := false
            reason := some ("Consultation starts in "
              ++ toString (jsCeilDiv (slotStart - nowMs) (60 * 1000))
              ++ " minutes. Please wait.")
            timeUntilStart := slotStart - nowMs } ∧
      60 * 1000 * (jsCeilDiv (slotStart - nowMs) (60 * 1000) - 1)
        < slotStart - nowMs ∧
      slotStart - nowMs ≤ 60 * 1000 * jsCeilDiv (slotStart - nowMs) (60 * 1000)) ∧
    (slotStart + 5 * 60 * 1000 < nowMs →
      canJoinAppointment slotStart nowMs
        = { canJoin := false
            reason := some "This consultation has already ended."
            timeUntilStart := slotStart - nowMs }) := by
  refine ⟨?_, fun h => ?_, fun h => ?_⟩
  · by_cases h1 : ((slotStart - nowMs).natAbs : Int) ≤ JOIN_TIME_WINDOW_MS
    · rw [canJoinAppointment, if_pos h1]
      unfold JOIN_TIME_WINDOW_MS at h1
      simp only [true_iff]
      omega
    · rw [canJoinAppointment, if_neg h1]
      unfold JOIN_TIME_WINDOW_MS at h1
      by_cases h2 : slotStart - nowMs > JOIN_TIME_WINDOW_MS
      · rw [if_pos h2]
        simp only [Bool.false_eq_true, false_iff]
        omega
      · rw [if_neg h2]
        simp only [Bool.false_eq_true, false_iff]
        omega
  · have h1 : ¬ ((slotStart - nowMs).natAbs : Int) ≤ JOIN_TIME_WINDOW_MS := by
      unfold JOIN_TIME_WINDOW_MS; omega
    have h2 : slotStart - nowMs > JOIN_TIME_WINDOW_MS := by
      unfold JOIN_TIME_WINDOW_MS; omega
    rw [canJoinAppointment, if_neg h1, if_pos h2]
    refine ⟨rfl, ?_, ?_⟩ <;> (unfold jsCeilDiv; omega)
  · have h1 : ¬ ((slotStart - nowMs).natAbs : Int) ≤ JOIN_TIME_WINDOW_MS := by
      unfold JOIN_TIME_WINDOW_MS; omega
    have h2 : ¬ slotStart - nowMs > JOIN_TIME_WINDOW_MS := by
      unfold JOIN_TIME_WINDOW_MS; omega
    rw [canJoinAppointment, if_neg h1, if_neg h2]

/-- C6 witness: ten minutes early the validator refuses with the
"starts in N minutes" reason; ten minutes late it reports the consultation
ended. -/
theorem canJoinAppointment_window_witness :
    canJoinAppointment 600000 0
      = { canJoin := false
          reason := some ("Consultation starts in "
            ++ toString (jsCeilDiv ((600000 : Int) - 0) (60 * 1000))
            ++ " minutes. Please wait.")
          timeUntilStart := 600000 - 0 } ∧
    canJoinAppointment 0 600000
      = { canJoin := false
          reason := some "This consultation has already ended."
          timeUntilStart := 0 - 600000 } :=
  ⟨((canJoinAppointment_window 0 600000).2.1 (by decide)).1,
    (canJoinAppointment_window 600000 0).2.2 (by decide)⟩

/-- C8: every successful booking returns an appointment whose `roomName`
is `doconcall-{appointmentId}-{creationTimestampMs}` — the app prefix, the
appointment's fresh id (minted inside the transaction before the room name
is computed), and the creation instant, joined by hyphens. It equals
`generateRoomName` of the appointment's own id and creation instant, so it
is deterministic in those two values, and the only appointment mutation in
the subsystem (`updateAppointmentStatus`) never changes it. -/
theorem roomName_format (store : Store) (clientId : String)
    (input : BookingInput) (now : Int) (appointmentId : String)
    (a : Appointment) (store' : Store)
    (h : bookAppointment store clientId input now appointmentId
      = .ok (a, store')) :
    a.id = appointmentId ∧ a.createdAt = now ∧
    a.roomName = "doconcall-" ++ a.id ++ "-" ++ toString a.createdAt ∧
    a.roomName = generateRoomName a.id a.createdAt ∧
    (∀ (status : AppointmentStatus) (now' : Int),
      (updateAppointmentStatus a status now').roomName = a.roomName) := by
  rcases hl : lookupSlot store input.doctorId input.slotId with _ | slot
  · unfold bookAppointment at h
    rw [hl] at h
    exact absurd h (by simp)
  · unfold bookAppointment at h
    rw [hl] at h
    dsimp only at h
    by_cases hb : slot.booked
    · rw [if_pos hb] at h; exact absurd h (by simp)
    · rw [if_neg hb] at h
      by_cases hp : slot.start < now
      · rw [if_pos hp] at h; exact absurd h (by simp)
      · rw [if_neg hp] at h
        injection h with h'
        injection h' with ha hs
        subst ha
        exact ⟨rfl, rfl, rfl, rfl, fun status now' => rfl⟩

/-- Lookup distributes over appending documents. -/
theorem lookupSlotIn_append (l l' : List ((String × String) × Slot))
    (d s : String) :
    lookupSlotIn (l ++ l') d s = (lookupSlotIn l d s).or (lookupSlotIn l' d s) := by
  unfold lookupSlotIn
  rw [List.find?_append]
  cases l.find? (fun p => p.1 == (d, s)) <;> simp

/-- Rewriting one key leaves lookups of every other key unchanged. -/
theorem lookupSlotIn_writeSlot_other (l : List ((String × String) × Slot))
    (d s d' s' : String) (slot' : Slot) (h : (d', s') ≠ (d, s)) :
    lookupSlotIn (writeSlot l d s slot') d' s' = lookupSlotIn l d' s' := by
  unfold lookupSlotIn writeSlot
  congr 1
  induction l with
  | nil => rfl
  | cons p t ih =>
    rw [List.map_cons]
    by_cases hp : p.1 = (d, s)
    · have hb : (p.1 == (d, s)) = true := beq_iff_eq.mpr hp
      have hb' : (p.1 == (d', s')) = false := by
        apply beq_eq_false_iff_ne.mpr
        rw [hp]
        exact fun hh => h hh.symm
      rw [if_pos hb]
      rw [List.find?_cons_of_neg _ (by simp [hb']),
        List.find?_cons_of_neg _ (by simp [hb'])]
      exact ih
    · have hb : (p.1 == (d, s)) = false := beq_eq_false_iff_ne.mpr hp
      rw [if_neg (by simp [hb])]
      cases hb2 : (p.1 == (d', s')) with
      | true =>
        rw [@List.find?_cons_of_pos _ (fun q => q.1 == (d', s')) p _ hb2,
          @List.find?_cons_of_pos _ (fun q => q.1 == (d', s')) p _ hb2]
      | false =>
        rw [List.find?_cons_of_neg _ (by simp [hb2]),
          List.find?_cons_of_neg _ (by simp [hb2])]
        exact ih

/-- Deleting one key leaves lookups of every other key unchanged. -/
theorem lookupSlotIn_filter_ne (l : List ((String × String) × Slot))
    (d0 s0 d s : String) (h : (d, s) ≠ (d0, s0)) :
    lookupSlotIn (l.filter (fun p => !(p.1 == (d0, s0)))) d s
      = lookupSlotIn l d s := by
  unfold lookupSlotIn
  congr 1
  induction l with
  | nil => rfl
  | cons p t ih =>
    by_cases hp : p.1 = (d0, s0)
    · have hb : (p.1 == (d0, s0)) = true := beq_iff_eq.mpr hp
      have hb' : (p.1 == (d, s)) = false := by
        apply beq_eq_false_iff_ne.mpr
        rw [hp]
        exact fun hh => h hh.symm
      rw [List.filter_cons_of_neg (by simp [hb]),
        List.find?_cons_of_neg _ (by simp [hb'])]
      exact ih
    · have hb : (p.1 == (d0, s0)) = false := beq_eq_false_iff_ne.mpr hp
      rw [List.filter_cons_of_pos (by simp [hb])]
      cases hb2 : (p.1 == (d, s)) with
      | true =>
        rw [@List.find?_cons_of_pos _ (fun q => q.1 == (d, s)) p _ hb2,
          @List.find?_cons_of_pos _ (fun q => q.1 == (d, s)) p _ hb2]
      | false =>
        rw [List.find?_cons_of_neg _ (by simp [hb2]),
          List.find?_cons_of_neg _ (by simp [hb2])]
        exact ih

/-- Deleting a key removes every document under it. -/
theorem lookupSlotIn_filter_self (l : List ((String × String) × Slot))
    (d0 s0 : String) :
    lookupSlotIn (l.filter (fun p => !(p.1 == (d0, s0)))) d0 s0 = none := by
  unfold lookupSlotIn
  rw [List.find?_eq_none.mpr]
  · rfl
  · intro x hx
    have := (List.mem_filter.mp hx).2
    simp at this
    simp [this]

/-- C10: a successful `bookAppointment` writes only the slot's `booked`
field — the updated document is `{ slot with booked := true }`, so
`doctorId`, `start`, `end` and `createdAt` are untouched — and leaves every
other slot document unchanged; moreover no operation of the subsystem
(`bookAppointment`, `createSlot`, `createSlots` — hence also the recurring
generation, which persists through `createSlots` — and `deleteSlot`) ever
turns a slot's `booked` flag from `true` back to `false`. -/
theorem booking_writes_only_booked :
    (∀ (store : Store) (clientId : String) (input : BookingInput) (now : Int)
      (appointmentId : String) (a : Appointment) (store' : Store),
      bookAppointment store clientId input now appointmentId = .ok (a, store') →
      (∀ slot, lookupSlot store input.doctorId input.slotId = some slot →
        lookupSlot store' input.doctorId input.slotId
          = some { slot with booked := true }) ∧
      (∀ d s, (d, s) ≠ (input.doctorId, input.slotId) →
        lookupSlot store' d s = lookupSlot store d s)) ∧
    (∀ (store : Store) (clientId : String) (input : BookingInput) (now : Int)
      (appointmentId : String) (a : Appointment) (store' : Store)
      (d s : String) (p q : Slot),
      bookAppointment store clientId input now appointmentId = .ok (a, store') →
      lookupSlot store d s = some p → p.booked = true →
      lookupSlot store' d s = some q → q.booked = true) ∧
    (∀ (store : Store) (doctorId : String) (input : SlotInput) (now : Int)
      (newId sid : String) (store' : Store) (d s : String) (p q : Slot),
      createSlot store doctorId input now newId = .ok (sid, store') →
      lookupSlot store d s = some p → p.booked = true →
      lookupSlot store' d s = some q → q.booked = true) ∧
    (∀ (store : Store) (doctorId : String) (slots : List SlotInput) (now : Int)
      (write : Nat → Option String) (d s : String) (p q : Slot),
      lookupSlot store d s = some p → p.booked = true →
      lookupSlot (createSlots store doctorId slots now write).2 d s = some q →
      q.booked = true) ∧
    (∀ (store : Store) (d0 s0 d s : String) (p q : Slot),
      lookupSlot store d s = some p → p.booked = true →
      lookupSlot (deleteSlot store d0 s0) d s = some q → q.booked = true) := by
  have hbook : ∀ (store : Store) (clientId : String) (input : BookingInput)
      (now : Int) (appointmentId : String) (a : Appointment) (store' : Store),
      bookAppointment store clientId input now appointmentId = .ok (a, store') →
      ∃ slot0, lookupSlot store input.doctorId input.slotId = some slot0 ∧
        store'.slots = writeSlot store.slots input.doctorId input.slotId
          { slot0 with booked := true } := by
    intro store clientId input now appointmentId a store' h
    rcases hl : lookupSlot store input.doctorId input.slotId with _ | slot
    · unfold bookAppointment at h
      rw [hl] at h
      exact absurd h (by simp)
    · unfold bookAppointment at h
      rw [hl] at h
      dsimp only at h
      by_cases hb : slot.booked
      · rw [if_pos hb] at h; exact absurd h (by simp)
      · rw [if_neg hb] at h
        by_cases hp : slot.start < now
        · rw [if_pos hp] at h; exact absurd h (by simp)
        · rw [if_neg hp] at h
          injection h with h'
          injection h' with ha hs
          subst hs
          exact ⟨slot, rfl, rfl⟩
  refine ⟨?_, ?_, ?_, ?_, ?_⟩
  · intro store clientId input now appointmentId a store' h
    obtain ⟨slot0, hl0, hs0⟩ := hbook store clientId input now appointmentId
      a store' h
    constructor
    · intro slot hl
      rw [hl] at hl0
      injection hl0 with he
      subst he
      show lookupSlotIn store'.slots input.doctorId input.slotId = _
      rw [hs0]
      exact lookupSlotIn_writeSlot_self store.slots input.doctorId input.slotId
        slot _ hl
    · intro d s hne
      show lookupSlotIn store'.slots d s = lookupSlotIn store.slots d s
      rw [hs0]
      exact lookupSlotIn_writeSlot_other store.slots input.doctorId
        input.slotId d s _ hne
  · intro store clientId input now appointmentId a store' d s p q h hp hb hq
    obtain ⟨slot0, hl0, hs0⟩ := hbook store clientId input now appointmentId
      a store' h
    by_cases hk : (d, s) = (input.doctorId, input.slotId)
    · injection hk with hk1 hk2
      rw [hk1, hk2] at hq
      have hwr : lookupSlot store' input.doctorId input.slotId
          = some { slot0 with booked := true } := by
        show lookupSlotIn store'.slots input.doctorId input.slotId = _
        rw [hs0]
        exact lookupSlotIn_writeSlot_self store.slots input.doctorId
          input.slotId slot0 _ hl0
      rw [hwr] at hq
      injection hq with he
      rw [← he]
    · have hfr : lookupSlot store' d s = lookupSlot store d s := by
        show lookupSlotIn store'.slots d s = lookupSlotIn store.slots d s
        rw [hs0]
        exact lookupSlotIn_writeSlot_other store.slots input.doctorId
          input.slotId d s _ hk
      rw [hfr, hp] at hq
      injection hq with he
      rw [← he]; exact hb
  · intro store doctorId input now newId sid store' d s p q h hp hb hq
    by_cases h1 : input.start ≥ input.stop
    · rw [createSlot, if_pos h1] at h; exact absurd h (by simp)
    · by_cases h2 : input.start < now
      · rw [createSlot, if_neg h1, if_pos h2] at h; exact absurd h (by simp)
      · rw [createSlot, if_neg h1, if_neg h2] at h
        injection h with h'
        injection h' with ha hs
        subst hs
        have hp' : lookupSlotIn store.slots d s = some p := hp
        have hq' : lookupSlotIn (store.slots
            ++ [((doctorId, newId), mkSlotDoc doctorId input now)]) d s
            = some q := hq
        rw [lookupSlotIn_append, hp'] at hq'
        injection hq' with he
        rw [← he]; exact hb
  · intro store doctorId slots now write d s p q hp hb hq
    have hstore := createSlotsGo_store doctorId now write slots 0 store [] 0 0
    rw [createSlots] at hq
    rw [hstore] at hq
    have hp' : lookupSlotIn store.slots d s = some p := hp
    have hq' : lookupSlotIn (store.slots
        ++ (acceptedWrites now write slots 0).map
          (fun r => ((doctorId, r.1), mkSlotDoc doctorId r.2 now))) d s
        = some q := hq
    rw [lookupSlotIn_append, hp'] at hq'
    injection hq' with he
    rw [← he]; exact hb
  · intro store d0 s0 d s p q hp hb hq
    by_cases hk : (d, s) = (d0, s0)
    · injection hk with hk1 hk2
      rw [hk1, hk2] at hq
      have hnone : lookupSlot (deleteSlot store d0 s0) d0 s0 = none :=
        lookupSlotIn_filter_self store.slots d0 s0
      rw [hnone] at hq
      exact absurd hq (by simp)
    · have hfr : lookupSlot (deleteSlot store d0 s0) d s = lookupSlot store d s :=
        lookupSlotIn_filter_ne store.slots d0 s0 d s hk
      rw [hfr, hp] at hq
      injection hq with he
      rw [← he]; exact hb

/-- C10 witness: the concrete booking flips only the `booked` flag of
`("d1","s1")`, and deleting a different key leaves the booked slot booked. -/
theorem booking_writes_only_booked_witness :
    lookupSlot sampleStoreAfterBooking "d1" "s1"
      = some { sampleFreeSlot with booked := true } ∧
    sampleBookedSlot.booked = true :=
  ⟨(booking_writes_only_booked.1 sampleFreeStore "c1" sampleInput 500 "a1"
      (mkAppointment "c1" sampleInput sampleFreeSlot 500 "a1")
      sampleStoreAfterBooking rfl).1 sampleFreeSlot rfl,
    booking_writes_only_booked.2.2.2.2 sampleBookedStore "d1" "s2" "d1" "s1"
      sampleBookedSlot sampleBookedSlot rfl rfl rfl⟩

/-- A loop started at or past `dayEnd` produces nothing, whatever the fuel. -/
theorem slotLoop_stop (dayEnd dur : Int) (fuel : Nat) (slotStart : Int)
    (h : ¬ slotStart < dayEnd) : slotLoop dayEnd dur fuel slotStart = [] := by
  cases fuel with
  | zero => rfl
  | succ fuel => simp [slotLoop, h]

/-- A day loop started past `endDate` produces nothing, whatever the fuel. -/
theorem dayLoop_stop (endDate : Int) (daysOfWeek : List Int) (st et dur : Int)
    (fuel : Nat) (current : Int) (h : ¬ current ≤ endDate) :
    dayLoop endDate daysOfWeek st et dur fuel current = [] := by
  cases fuel with
  | zero => rfl
  | succ fuel => simp [dayLoop, h]

/-- Peeling one slot off the spec-side day description. -/
theorem specDaySlots_succ (start dur : Int) (n : Nat) :
    specDaySlots start dur (n + 1)
      = ⟨start, start + dur⟩ :: specDaySlots (start + dur) dur n := by
  unfold specDaySlots
  rw [List.range_succ_eq_map, List.map_cons, List.map_map]
  congr 1
  · simp
  · apply List.map_congr_left
    intro k hk
    simp only [Function.comp_apply, SlotInput.mk.injEq]
    refine ⟨by push_cast; ring, by push_cast; ring⟩

/-- The inner loop, given enough fuel and a positive duration, emits exactly
`⌊(dayEnd − slotStart) / dur⌋` consecutive slots of `dur` minutes starting
at `slotStart` — the trailing remainder shorter than `dur` is discarded. -/
theorem slotLoop_eq (dur : Int) (hdur : 1 ≤ dur) :
    ∀ (fuel : Nat) (dayEnd slotStart : Int),
      (dayEnd - slotStart).toNat < fuel →
      slotLoop dayEnd dur fuel slotStart
        = specDaySlots slotStart dur ((dayEnd - slotStart) / dur).toNat := by
  intro fuel
  induction fuel with
  | zero => intro dayEnd slotStart h; exact absurd h (by omega)
  | succ fuel ih =>
    intro dayEnd slotStart hfuel
    by_cases hlt : slotStart < dayEnd
    · by_cases hfit : slotStart + dur ≤ dayEnd
      · have key := Int.add_mul_ediv_right (dayEnd - (slotStart + dur)) 1
          (show dur ≠ 0 by omega)
        rw [one_mul, show dayEnd - (slotStart + dur) + dur = dayEnd - slotStart
          by ring] at key
        have hpos : 0 ≤ (dayEnd - (slotStart + dur)) / dur :=
          Int.ediv_nonneg (by omega) (by omega)
        have hn : ((dayEnd - slotStart) / dur).toNat
            = ((dayEnd - (slotStart + dur)) / dur).toNat + 1 := by
          rw [key, Int.toNat_add hpos (by norm_num)]
          rfl
        simp only [slotLoop]
        rw [if_pos hlt, if_pos hfit, ih dayEnd (slotStart + dur) (by omega),
          hn, specDaySlots_succ]
        simp
      · have hn : (dayEnd - slotStart) / dur = 0 :=
          Int.ediv_eq_zero_of_lt (by omega) (by omega)
        simp only [slotLoop]
        rw [if_pos hlt, if_neg hfit,
          slotLoop_stop dayEnd dur fuel (slotStart + dur) (by omega), hn]
        simp [specDaySlots]
    · have hn : (dayEnd - slotStart) / dur ≤ 0 := by
        have h0 := Int.ediv_le_ediv (show (0:Int) < dur by omega)
          (show dayEnd - slotStart ≤ 0 by omega)
        simpa using h0
      have hn0 : ((dayEnd - slotStart) / dur).toNat = 0 := by
        generalize hA : (dayEnd - slotStart) / dur = A at hn
        omega
      simp only [slotLoop]
      rw [if_neg hlt, hn0]
      simp [specDaySlots]

/-- Peeling one calendar day off the spec-side description. -/
theorem specSlots_succ (startDay : Int) (numDays : Nat) (daysOfWeek : List Int)
    (st et dur : Int) :
    specSlots startDay (numDays + 1) daysOfWeek st et dur
      = specDayPiece daysOfWeek st et dur startDay
        ++ specSlots (startDay + 1) numDays daysOfWeek st et dur := by
  unfold specSlots
  rw [List.range_succ_eq_map, List.flatMap_cons, List.flatMap_map]
  congr 1
  · norm_num
  · have hfun : (fun k => specDayPiece daysOfWeek st et dur
        (startDay + ((Nat.succ k : Nat) : Int)))
        = (fun k : Nat => specDayPiece daysOfWeek st et dur
            ((startDay + 1) + (k : Int))) :=
      funext fun k => congrArg _ (by push_cast; ring)
    rw [hfun]

/-- The day loop over day-aligned bounds equals the spec-side description
of the inclusive calendar-day range. -/
theorem dayLoop_eq (e : Int) (daysOfWeek : List Int) (st et dur : Int)
    (hdur : 1 ≤ dur) :
    ∀ (fuel : Nat) (d : Int), (e - d).toNat < fuel → d ≤ e →
      dayLoop (1440 * e) daysOfWeek st et dur fuel (1440 * d)
        = specSlots d ((e - d).toNat + 1) daysOfWeek st et dur := by
  intro fuel
  induction fuel with
  | zero => intro d h hle; exact absurd h (by omega)
  | succ fuel ih =>
    intro d hfuel hle
    have hcond : 1440 * d ≤ 1440 * e := by omega
    have hday : getDay (1440 * d) = weekday d := by
      unfold getDay weekday
      rw [Int.mul_ediv_cancel_left d (by norm_num)]
    have hst : dayStartAt (1440 * d) st = 1440 * d + st := by
      unfold dayStartAt
      rw [Int.mul_ediv_cancel_left d (by norm_num)]
      ring
    have het : dayStartAt (1440 * d) et = 1440 * d + et := by
      unfold dayStartAt
      rw [Int.mul_ediv_cancel_left d (by norm_num)]
      ring
    have hinner : slotLoop (1440 * d + et) dur ((et - st).toNat + 1)
        (1440 * d + st)
        = specDaySlots (1440 * d + st) dur ((et - st) / dur).toNat := by
      rw [slotLoop_eq dur hdur ((et - st).toNat + 1) (1440 * d + et)
        (1440 * d + st) (by omega)]
      rw [show 1440 * d + et - (1440 * d + st) = et - st by ring]
    simp only [dayLoop]
    rw [if_pos hcond, hday, hst, het, hinner]
    rcases eq_or_lt_of_le hle with heq | hlt
    · rw [dayLoop_stop (1440 * e) daysOfWeek st et dur fuel (1440 * d + 1440)
        (by omega)]
      rw [show (e - d).toNat = 0 by omega]
      rw [specSlots_succ]
      simp [specSlots, specDayPiece]
    · rw [show (1440 : Int) * d + 1440 = 1440 * (d + 1) by ring,
        ih (d + 1) (by omega) (by omega)]
      conv_rhs =>
        rw [show (e - d).toNat + 1 = ((e - (d + 1)).toNat + 1) + 1 by omega,
          specSlots_succ]
      simp [specDayPiece]

/-- Every slot the spec-side day description emits lasts exactly `dur`. -/
theorem specDaySlots_duration (start dur : Int) (n : Nat) :
    ∀ q ∈ specDaySlots start dur n, q.stop - q.start = dur := by
  intro q hq
  obtain ⟨k, hk, rfl⟩ := List.mem_map.mp hq
  show start + ((k : Int) + 1) * dur - (start + (k : Int) * dur) = dur
  ring

/-- Every slot the spec-side generation emits lasts exactly `dur`. -/
theorem specSlots_duration (startDay : Int) (numDays : Nat)
    (daysOfWeek : List Int) (st et dur : Int) :
    ∀ q ∈ specSlots startDay numDays daysOfWeek st et dur,
      q.stop - q.start = dur := by
  intro q hq
  unfold specSlots at hq
  obtain ⟨i, hi, hq⟩ := List.mem_flatMap.mp hq
  unfold specDayPiece at hq
  by_cases hw : daysOfWeek.contains (weekday (startDay + (i : Int)))
  · rw [if_pos hw] at hq
    exact specDaySlots_duration _ dur _ q hq
  · rw [if_neg hw] at hq
    exact absurd hq (by simp)

/-- C5: for a valid recurring configuration over calendar-day-aligned
dates (`startDate = 1440·b`, `endDate = 1440·e`, `b ≤ e`, parsed times
`st < et`, positive duration, non-empty day selection), the generated
candidate list is exactly: for each of the `e − b + 1` consecutive calendar
days whose weekday is selected, `⌊(endTime − startTime) / duration⌋`
consecutive abutting slots of exactly `duration` minutes starting at
`startTime` (`specSlots`/`specDaySlots`); a trailing remainder shorter than
`duration` is never emitted, and every emitted slot lasts exactly
`duration` minutes. `createRecurringSlots` persists exactly this list via
`createSlots`. -/
theorem generateRecurringSlots_spec (cfg : RecurringSlotConfig)
    (b e st et : Int)
    (hsd : cfg.startDate = 1440 * b) (hed : cfg.endDate = 1440 * e)
    (hbe : b ≤ e)
    (hstp : parseTimeMinutes cfg.startTime = st)
    (hetp : parseTimeMinutes cfg.endTime = et)
    (hlt : st < et) (hdur : 1 ≤ cfg.durationMinutes)
    (hdw : cfg.daysOfWeek ≠ []) :
    generateRecurringSlots cfg
      = specSlots b ((e - b).toNat + 1) cfg.daysOfWeek st et
          cfg.durationMinutes ∧
    (∀ q ∈ generateRecurringSlots cfg,
      q.stop - q.start = cfg.durationMinutes) ∧
    (∀ (store : Store) (doctorId : String) (now : Int)
      (write : Nat → Option String),
      createRecurringSlots store doctorId cfg now write
        = createSlots store doctorId (generateRecurringSlots cfg) now write) := by
  have hmain : generateRecurringSlots cfg
      = specSlots b ((e - b).toNat + 1) cfg.daysOfWeek st et
          cfg.durationMinutes := by
    unfold generateRecurringSlots
    rw [hsd, hed, hstp, hetp]
    rw [show (1440 * e - 1440 * b).toNat / 1440 + 1 = (e - b).toNat + 1 by omega]
    exact dayLoop_eq e cfg.daysOfWeek st et cfg.durationMinutes hdur
      ((e - b).toNat + 1) b (by omega) hbe
  refine ⟨hmain, ?_, fun store doctorId now write => rfl⟩
  intro q hq
  rw [hmain] at hq
  exact specSlots_duration b ((e - b).toNat + 1) cfg.daysOfWeek st et
    cfg.durationMinutes q hq

/-- C5 witness: the Monday-to-Friday 09:00–10:00 half-hour example — five
selected weekdays, two slots per day — yields exactly the spec-side
description and 10 slots in total. -/
theorem generateRecurringSlots_spec_witness :
    generateRecurringSlots exampleRecurringConfig
      = specSlots 4 (((8 : Int) - 4).toNat + 1) [1, 2, 3, 4, 5] 540 600 30 ∧
    (generateRecurringSlots exampleRecurringConfig).length = 10 :=
  ⟨(generateRecurringSlots_spec exampleRecurringConfig 4 8 540 600
      rfl rfl (by decide) rfl rfl (by decide) (by decide) (by decide)).1,
    by decide⟩

/-- C8 witness: the booking of the concrete free slot yields room name
`doconcall-a1-500`. -/
theorem roomName_format_witness :
    (mkAppointment "c1" sampleInput sampleFreeSlot 500 "a1").id = "a1" ∧
    (mkAppointment "c1" sampleInput sampleFreeSlot 500 "a1").roomName
      = "doconcall-" ++ (mkAppointment "c1" sampleInput sampleFreeSlot 500 "a1").id
        ++ "-"
        ++ toString (mkAppointment "c1" sampleInput sampleFreeSlot 500 "a1").createdAt := by
  have h := roomName_format sampleFreeStore "c1" sampleInput 500 "a1"
    (mkAppointment "c1" sampleInput sampleFreeSlot 500 "a1")
    sampleStoreAfterBooking rfl
  exact ⟨h.1, h.2.2.1⟩

end DoctorOnCall
